import Mathlib

/-!
Shallow embedding of the `ObsidianChess` plugin (`src/main.ts`), in particular
of the static method `ObsidianChess.parseCode` and of the settings-default
logic in `onload`.  Strings are modelled as `List Char`; JavaScript string
operations (`split`, `replace` with a string pattern, `trim`, `startsWith`,
`substring`) are modelled by the functions below, each faithful to the
JavaScript semantics used at the call sites.
-/

/-- Whitespace predicate backing JavaScript `String.prototype.trim` (the ASCII
whitespace characters; the inputs handled by the plugin are ASCII). -/
def isJsSpace (c : Char) : Bool :=
  c == ' ' || c == '\t' || c == '\n' || c == '\r' || c == '\x0b' || c == '\x0c'

/-- JavaScript `s.trim()`: remove leading and trailing whitespace. -/
def trimJs (s : List Char) : List Char :=
  ((s.dropWhile isJsSpace).reverse.dropWhile isJsSpace).reverse

/-- JavaScript `s.startsWith(pat)`. -/
def startsWith : List Char → List Char → Bool
  | [], _ => true
  | _ :: _, [] => false
  | p :: ps, c :: cs => p == c && startsWith ps cs

/-- JavaScript `s.replace(pat, "")` for a plain-string pattern: remove the
first occurrence of `pat`, if any. -/
def replaceFirst (pat : List Char) : List Char → List Char
  | [] => []
  | c :: rest =>
    if startsWith pat (c :: rest) then (c :: rest).drop pat.length
    else c :: replaceFirst pat rest

/-- JavaScript `s.split(sep)` for a single-character separator: always returns
at least one (possibly empty) field. -/
def splitOnChar (sep : Char) : List Char → List (List Char)
  | [] => [[]]
  | c :: rest =>
    let r := splitOnChar sep rest
    if c = sep then [] :: r
    else (c :: r.headD []) :: r.tail

/-- JavaScript `input.split(/\r?\n/)`: line splitting, where each `"\r\n"` or
bare `"\n"` is a separator (a `'\r'` not followed by `'\n'` stays in the line). -/
def splitLines : List Char → List (List Char)
  | [] => [[]]
  | '\r' :: '\n' :: rest => [] :: splitLines rest
  | '\n' :: rest => [] :: splitLines rest
  | c :: rest =>
    let r := splitLines rest
    (c :: r.headD []) :: r.tail

def fenKey : List Char := "fen: ".data

def orientKey : List Char := "orientation: ".data

def annKey : List Char := "annotations: ".data

def hKey : List Char := "H".data

def aKey : List Char := "A".data

def whiteStr : List Char := "white".data

def blackStr : List Char := "black".data

def unknownMsg : List Char := "Unknown orientation ".data

/-- The `Highlight | ArrowAnnotation` union of `main.ts`.  An arrow's `start`
and `endSq` model the destructuring `let [start, end] = ...split("-")`, whose
components are `undefined` (here `none`) when the array is too short. -/
inductive Annot where
  | highlight (square : List Char)
  | arrow (start endSq : Option (List Char))
deriving DecidableEq, Repr

/-- The `ParsedChessCode` interface of `main.ts`. -/
structure ParsedChessCode where
  fen : List Char
  annotations : List Annot
  orientation : List Char
deriving DecidableEq, Repr

/-- One token of an `annotations: ` line (the loop body at lines 110-127 of
`main.ts`): `H`-tokens become highlights of everything after the `H`,
`A`-tokens become arrows from the `split("-")` destructuring, and any other
token yields nothing. -/
def parseToken (tok : List Char) : Option Annot :=
  if startsWith hKey tok then some (.highlight (tok.drop 1))
  else if startsWith aKey tok then
    let parts := splitOnChar '-' (tok.drop 1)
    some (.arrow (parts.get? 0) (parts.get? 1))
  else none

/-- The `orientation: ` branch (lines 99-106 of `main.ts`) acting on the
mutable `line` and `orientation` variables: returns the updated pair
`(line, orientation)` or the thrown error message. -/
def orientStep (o line : List Char) : Except (List Char) (List Char × List Char) :=
  if startsWith orientKey line then
    if trimJs (replaceFirst orientKey line) ≠ whiteStr ∧
        trimJs (replaceFirst orientKey line) ≠ blackStr then
      .error (unknownMsg ++ o)
    else .ok (trimJs (replaceFirst orientKey line), trimJs (replaceFirst orientKey line))
  else .ok (line, o)

/-- The `annotations: ` branch (lines 107-128 of `main.ts`) acting on the
accumulated annotations list. -/
def annotStep (acc : List Annot) (line : List Char) : List Annot :=
  if startsWith annKey line then
    acc ++ (splitOnChar ' ' (replaceFirst annKey line)).filterMap parseToken
  else acc

/-- The loop `for (let line of lines.splice(1))` of `parseCode`. -/
def parseLines : List Char → List Annot → List (List Char) →
    Except (List Char) (List Char × List Annot)
  | o, acc, [] => .ok (o, acc)
  | o, acc, line :: rest =>
    if trimJs line = [] then parseLines o acc rest
    else
      match orientStep o line with
      | .error e => .error e
      | .ok (line2, o2) => parseLines o2 (annotStep acc line2) rest

/-- `ObsidianChess.parseCode` (lines 87-131 of `main.ts`), with the thrown
`Error` modelled as `Except.error` carrying the message. -/
def parseCodeL (input : List Char) : Except (List Char) ParsedChessCode :=
  (parseLines whiteStr [] ((splitLines input).drop 1)).map fun p =>
    { fen :=
        if startsWith fenKey ((splitLines input).headD []) then
          replaceFirst fenKey ((splitLines input).headD [])
        else (splitLines input).headD []
      annotations := p.2
      orientation := p.1 }

/-- `parseCode` on a Lean `String` input. -/
def parseCode (input : String) : Except (List Char) ParsedChessCode :=
  parseCodeL input.data

/-- The `ObsidianChessSettings` record of `main.ts`. -/
structure ObsidianChessSettings where
  whiteSquareColor : List Char
  blackSquareColor : List Char
  boardWidthPx : Nat
deriving DecidableEq, Repr

/-- The object literal in `onload` (lines 34-38 of `main.ts`). -/
def defaultSettings : ObsidianChessSettings :=
  { whiteSquareColor := "#f0d9b5".data
    blackSquareColor := "#b58862".data
    boardWidthPx := 320 }

/-- `this.setting = (await this.loadData()) || {...}` of `onload`: a missing
persisted blob (`null`/`undefined`, here `none`) falls back to the defaults. -/
def loadSettings (persisted : Option ObsidianChessSettings) : ObsidianChessSettings :=
  match persisted with
  | some s => s
  | none => defaultSettings

/-- Substring test, used to state what the thrown message does (not) contain. -/
def containsSub (needle hay : List Char) : Bool :=
  (List.range (hay.length + 1)).any fun i => startsWith needle (hay.drop i)

/-- The text of a token strictly before its first `sep`. -/
def takeUntil (sep : Char) (s : List Char) : List Char :=
  s.takeWhile fun c => c != sep

/-- The text of a token strictly after its first `sep`. -/
def dropPast (sep : Char) (s : List Char) : List Char :=
  (s.dropWhile fun c => c != sep).drop 1

/-- The trimmed values of the `orientation: ` lines of a line list, in order. -/
def orientVals (ls : List (List Char)) : List (List Char) :=
  ls.filterMap fun l =>
    if startsWith orientKey l then some (trimJs (replaceFirst orientKey l)) else none

/-- The annotations contributed by one source line. -/
def lineAnns (line : List Char) : List Annot :=
  if startsWith annKey line then
    (splitOnChar ' ' (replaceFirst annKey line)).filterMap parseToken
  else []

instance {ε α : Type} [DecidableEq ε] [DecidableEq α] : DecidableEq (Except ε α) := fun a b =>
  match a, b with
  | .error e, .error f =>
    if h : e = f then .isTrue (by rw [h]) else .isFalse (by intro hh; cases hh; exact h rfl)
  | .error _, .ok _ => .isFalse (by intro hh; cases hh)
  | .ok _, .error _ => .isFalse (by intro hh; cases hh)
  | .ok x, .ok y =>
    if h : x = y then .isTrue (by rw [h]) else .isFalse (by intro hh; cases hh; exact h rfl)

example : splitLines "a\r\nb\nc".data = ["a".data, "b".data, "c".data] := by decide

example : splitOnChar '-' "e2-e4-g5".data = ["e2".data, "e4".data, "g5".data] := by decide

example : splitOnChar ' ' "".data = [[]] := by decide

example : trimJs "  white ".data = "white".data := by decide

example : replaceFirst "fen: ".data "fen: fen: x".data = "fen: x".data := by decide

example :
    parseCode "rnbqkbnr/pppppppp/8/8/8/8/PPPPPPPP/RNBQKBNR" =
      .ok { fen := "rnbqkbnr/pppppppp/8/8/8/8/PPPPPPPP/RNBQKBNR".data
            annotations := []
            orientation := whiteStr } := by decide

example :
    parseCode "x\nannotations: He4 Ae2-e4 Xz9" =
      .ok { fen := "x".data
            annotations := [.highlight "e4".data, .arrow (some "e2".data) (some "e4".data)]
            orientation := whiteStr } := by decide

example :
    parseCode "x\norientation: purple" = .error ("Unknown orientation white".data) := by
  decide

theorem startsWith_head (k : Char) (ks line : List Char)
    (h : startsWith (k :: ks) line = true) : ∃ rest, line = k :: rest := by
  cases line with
  | nil => simp [startsWith] at h
  | cons c cs =>
    refine ⟨cs, ?_⟩
    simp only [startsWith, Bool.and_eq_true, beq_iff_eq] at h
    rw [h.1]

theorem trim_ne_of_startsWith (k : Char) (ks line : List Char) (hk : isJsSpace k = false)
    (h : startsWith (k :: ks) line = true) : trimJs line ≠ [] := by
  obtain ⟨rest, rfl⟩ := startsWith_head k ks line h
  intro hnil
  unfold trimJs at hnil
  rw [List.reverse_eq_nil_iff, List.dropWhile_eq_nil_iff] at hnil
  have hd : List.dropWhile isJsSpace (k :: rest) = k :: rest := by
    rw [List.dropWhile_cons, if_neg (by simp [hk])]
  rw [hd] at hnil
  have hks := hnil k (by simp)
  rw [hk] at hks
  exact Bool.false_ne_true hks

theorem blank_no_orient (line : List Char) (hb : trimJs line = []) :
    startsWith orientKey line = false := by
  cases hc : startsWith orientKey line with
  | false => rfl
  | true =>
    exfalso
    have e : orientKey = 'o' :: "rientation: ".data := rfl
    rw [e] at hc
    exact trim_ne_of_startsWith 'o' _ line (by decide) hc hb

theorem blank_no_ann (line : List Char) (hb : trimJs line = []) :
    startsWith annKey line = false := by
  cases hc : startsWith annKey line with
  | false => rfl
  | true =>
    exfalso
    have e : annKey = 'a' :: "nnotations: ".data := rfl
    rw [e] at hc
    exact trim_ne_of_startsWith 'a' _ line (by decide) hc hb

theorem orient_no_ann (line : List Char) (h : startsWith orientKey line = true) :
    startsWith annKey line = false := by
  have e : orientKey = 'o' :: "rientation: ".data := rfl
  rw [e] at h
  obtain ⟨rest, rfl⟩ := startsWith_head _ _ _ h
  have ea : annKey = 'a' :: "nnotations: ".data := rfl
  rw [ea]
  simp [startsWith]

theorem startsWith_A_not_H (tok : List Char) (h : startsWith aKey tok = true) :
    startsWith hKey tok = false := by
  have e : aKey = 'A' :: [] := rfl
  rw [e] at h
  obtain ⟨rest, rfl⟩ := startsWith_head _ _ _ h
  have eh : hKey = 'H' :: [] := rfl
  rw [eh]
  simp [startsWith]

theorem replaceFirst_eq_drop (pat s : List Char) (h : startsWith pat s = true) :
    replaceFirst pat s = s.drop pat.length := by
  cases s with
  | nil =>
    cases pat with
    | nil => rfl
    | cons p ps => simp [startsWith] at h
  | cons c cs =>
    unfold replaceFirst
    rw [if_pos h]

theorem parseLines_blank (o : List Char) (acc : List Annot) (line : List Char)
    (rest : List (List Char)) (hb : trimJs line = []) :
    parseLines o acc (line :: rest) = parseLines o acc rest := by
  simp [parseLines, hb]

theorem parseLines_other (o : List Char) (acc : List Annot) (line : List Char)
    (rest : List (List Char)) (hb : trimJs line ≠ [])
    (hsw : startsWith orientKey line = false) :
    parseLines o acc (line :: rest) = parseLines o (annotStep acc line) rest := by
  simp [parseLines, hb, orientStep, hsw]

theorem parseLines_orient_bad (o : List Char) (acc : List Annot) (line : List Char)
    (rest : List (List Char)) (hb : trimJs line ≠ [])
    (hsw : startsWith orientKey line = true)
    (h1 : trimJs (replaceFirst orientKey line) ≠ whiteStr)
    (h2 : trimJs (replaceFirst orientKey line) ≠ blackStr) :
    parseLines o acc (line :: rest) = .error (unknownMsg ++ o) := by
  simp [parseLines, hb, orientStep, hsw, h1, h2]

theorem parseLines_orient_ok (o : List Char) (acc : List Annot) (line : List Char)
    (rest : List (List Char)) (hb : trimJs line ≠ [])
    (hsw : startsWith orientKey line = true)
    (hv : trimJs (replaceFirst orientKey line) = whiteStr ∨
      trimJs (replaceFirst orientKey line) = blackStr) :
    parseLines o acc (line :: rest) =
      parseLines (trimJs (replaceFirst orientKey line))
        (annotStep acc (trimJs (replaceFirst orientKey line))) rest := by
  have hcond : ¬ (trimJs (replaceFirst orientKey line) ≠ whiteStr ∧
      trimJs (replaceFirst orientKey line) ≠ blackStr) := by
    rcases hv with hv | hv <;> simp [hv]
  simp [parseLines, hb, orientStep, hsw, hcond]

theorem annotStep_eq (acc : List Annot) (line : List Char) :
    annotStep acc line = acc ++ lineAnns line := by
  unfold annotStep lineAnns
  by_cases h : startsWith annKey line = true
  · rw [if_pos h, if_pos h]
  · rw [if_neg h, if_neg h, List.append_nil]

theorem lineAnns_white : lineAnns whiteStr = [] := rfl

theorem lineAnns_black : lineAnns blackStr = [] := rfl

theorem orientVals_cons_yes (l : List Char) (ls : List (List Char))
    (h : startsWith orientKey l = true) :
    orientVals (l :: ls) = trimJs (replaceFirst orientKey l) :: orientVals ls := by
  simp [orientVals, h]

theorem orientVals_cons_no (l : List Char) (ls : List (List Char))
    (h : startsWith orientKey l = false) :
    orientVals (l :: ls) = orientVals ls := by
  simp [orientVals, h]

theorem splitOnChar_ne_nil (sep : Char) (s : List Char) : splitOnChar sep s ≠ [] := by
  cases s with
  | nil => simp [splitOnChar]
  | cons c rest =>
    unfold splitOnChar
    by_cases h : c = sep <;> simp [h]

theorem splitOnChar_getq_zero (sep : Char) (s : List Char) :
    (splitOnChar sep s).get? 0 = some (takeUntil sep s) := by
  induction s with
  | nil => rfl
  | cons c rest ih =>
    unfold splitOnChar
    by_cases h : c = sep
    · simp [h, takeUntil, List.takeWhile_cons]
    · cases hr : splitOnChar sep rest with
      | nil => exact absurd hr (splitOnChar_ne_nil sep rest)
      | cons a t =>
        rw [hr] at ih
        simp only [List.get?_cons_zero, Option.some.injEq] at ih
        simp [h, hr, takeUntil, List.takeWhile_cons, bne_iff_ne, ih]

theorem splitOnChar_getq_one (sep : Char) (s : List Char) :
    (splitOnChar sep s).get? 1 =
      if s.any (fun c => c == sep) then some (takeUntil sep (dropPast sep s))
      else none := by
  induction s with
  | nil => rfl
  | cons c rest ih =>
    unfold splitOnChar
    by_cases h : c = sep
    · subst h
      rw [if_pos (by simp [List.any_cons])]
      have hdp : dropPast c (c :: rest) = rest := by
        simp [dropPast, List.dropWhile_cons]
      rw [hdp]
      simpa using splitOnChar_getq_zero c rest
    · have hany : (c :: rest).any (fun x => x == sep) = rest.any (fun x => x == sep) := by
        simp [List.any_cons, h]
      have hdp : dropPast sep (c :: rest) = dropPast sep rest := by
        simp [dropPast, List.dropWhile_cons, bne_iff_ne, h]
      cases hr : splitOnChar sep rest with
      | nil => exact absurd hr (splitOnChar_ne_nil sep rest)
      | cons a t =>
        rw [hr] at ih
        simp only [h, if_false, hany, hdp]
        simpa using ih

theorem takeUntil_eq_self (sep : Char) (s : List Char)
    (h : s.any (fun c => c == sep) = false) : takeUntil sep s = s := by
  induction s with
  | nil => rfl
  | cons c rest ih =>
    simp only [List.any_cons, Bool.or_eq_false_iff] at h
    unfold takeUntil
    rw [List.takeWhile_cons, if_pos (by simp [bne_iff_ne]; simpa using h.1)]
    have := ih h.2
    unfold takeUntil at this
    rw [this]

theorem parseLines_ok_orient (ls : List (List Char)) : ∀ (o : List Char)
    (acc : List Annot) (o2 : List Char) (anns : List Annot),
    parseLines o acc ls = .ok (o2, anns) → o2 = (orientVals ls).getLastD o := by
  induction ls with
  | nil =>
    intro o acc o2 anns h
    simp [parseLines] at h
    simp [orientVals, ← h.1]
  | cons line rest ih =>
    intro o acc o2 anns h
    by_cases hb : trimJs line = []
    · rw [parseLines_blank o acc line rest hb] at h
      rw [orientVals_cons_no line rest (blank_no_orient line hb)]
      exact ih o acc o2 anns h
    · by_cases hsw : startsWith orientKey line = true
      · by_cases hv : trimJs (replaceFirst orientKey line) = whiteStr ∨
            trimJs (replaceFirst orientKey line) = blackStr
        · rw [parseLines_orient_ok o acc line rest hb hsw hv] at h
          rw [orientVals_cons_yes line rest hsw, List.getLastD_cons]
          exact ih _ _ o2 anns h
        · push_neg at hv
          rw [parseLines_orient_bad o acc line rest hb hsw hv.1 hv.2] at h
          cases h
      · rw [Bool.not_eq_true] at hsw
        rw [parseLines_other o acc line rest hb hsw] at h
        rw [orientVals_cons_no line rest hsw]
        exact ih _ _ o2 anns h

theorem parseLines_ok_anns (ls : List (List Char)) : ∀ (o : List Char)
    (acc : List Annot) (o2 : List Char) (anns : List Annot),
    parseLines o acc ls = .ok (o2, anns) → anns = acc ++ (ls.map lineAnns).flatten := by
  induction ls with
  | nil =>
    intro o acc o2 anns h
    simp [parseLines] at h
    simp [← h.2]
  | cons line rest ih =>
    intro o acc o2 anns h
    by_cases hb : trimJs line = []
    · rw [parseLines_blank o acc line rest hb] at h
      have hla : lineAnns line = [] := by
        unfold lineAnns
        rw [if_neg (by simp [blank_no_ann line hb])]
      simp only [List.map_cons, List.flatten, hla, List.nil_append]
      exact ih o acc o2 anns h
    · by_cases hsw : startsWith orientKey line = true
      · by_cases hv : trimJs (replaceFirst orientKey line) = whiteStr ∨
            trimJs (replaceFirst orientKey line) = blackStr
        · rw [parseLines_orient_ok o acc line rest hb hsw hv] at h
          have hstep : annotStep acc (trimJs (replaceFirst orientKey line)) = acc := by
            rcases hv with hv | hv <;>
              rw [annotStep_eq, hv] <;>
              simp [lineAnns_white, lineAnns_black]
          rw [hstep] at h
          have hla : lineAnns line = [] := by
            unfold lineAnns
            rw [if_neg (by simp [orient_no_ann line hsw])]
          simp only [List.map_cons, List.flatten, hla, List.nil_append]
          exact ih _ _ o2 anns h
        · push_neg at hv
          rw [parseLines_orient_bad o acc line rest hb hsw hv.1 hv.2] at h
          cases h
      · rw [Bool.not_eq_true] at hsw
        rw [parseLines_other o acc line rest hb hsw] at h
        have := ih _ _ o2 anns h
        rw [annotStep_eq] at this
        simp only [List.map_cons, List.flatten]
        rw [this, List.append_assoc]

theorem parseLines_error_iff (ls : List (List Char)) : ∀ (o : List Char)
    (acc : List Annot),
    (∃ e, parseLines o acc ls = .error e) ↔
      ∃ line ∈ ls, startsWith orientKey line = true ∧
        trimJs (replaceFirst orientKey line) ≠ whiteStr ∧
        trimJs (replaceFirst orientKey line) ≠ blackStr := by
  induction ls with
  | nil =>
    intro o acc
    simp [parseLines]
  | cons line rest ih =>
    intro o acc
    by_cases hb : trimJs line = []
    · rw [parseLines_blank o acc line rest hb]
      rw [ih o acc]
      constructor
      · rintro ⟨l, hl, hprop⟩
        exact ⟨l, List.mem_cons_of_mem line hl, hprop⟩
      · rintro ⟨l, hl, hprop⟩
        rcases List.mem_cons.mp hl with rfl | hl
        · rw [blank_no_orient l hb] at hprop
          cases hprop.1
        · exact ⟨l, hl, hprop⟩
    · by_cases hsw : startsWith orientKey line = true
      · by_cases hv : trimJs (replaceFirst orientKey line) = whiteStr ∨
            trimJs (replaceFirst orientKey line) = blackStr
        · rw [parseLines_orient_ok o acc line rest hb hsw hv]
          rw [ih _ _]
          constructor
          · rintro ⟨l, hl, hprop⟩
            exact ⟨l, List.mem_cons_of_mem line hl, hprop⟩
          · rintro ⟨l, hl, hprop⟩
            rcases List.mem_cons.mp hl with rfl | hl
            · rcases hv with hv | hv
              · exact absurd hv hprop.2.1
              · exact absurd hv hprop.2.2
            · exact ⟨l, hl, hprop⟩
        · push_neg at hv
          rw [parseLines_orient_bad o acc line rest hb hsw hv.1 hv.2]
          constructor
          · intro _
            exact ⟨line, List.mem_cons_self line rest, hsw, hv.1, hv.2⟩
          · intro _
            exact ⟨unknownMsg ++ o, rfl⟩
      · rw [Bool.not_eq_true] at hsw
        rw [parseLines_other o acc line rest hb hsw]
        rw [ih _ _]
        constructor
        · rintro ⟨l, hl, hprop⟩
          exact ⟨l, List.mem_cons_of_mem line hl, hprop⟩
        · rintro ⟨l, hl, hprop⟩
          rcases List.mem_cons.mp hl with rfl | hl
          · rw [hsw] at hprop
            cases hprop.1
          · exact ⟨l, hl, hprop⟩

theorem parseCodeL_ok_elim (input : List Char) (r : ParsedChessCode)
    (h : parseCodeL input = .ok r) :
    parseLines whiteStr [] ((splitLines input).drop 1) = .ok (r.orientation, r.annotations) ∧
    r.fen = (if startsWith fenKey ((splitLines input).headD []) then
        replaceFirst fenKey ((splitLines input).headD [])
      else (splitLines input).headD []) := by
  unfold parseCodeL at h
  cases hp : parseLines whiteStr [] ((splitLines input).drop 1) with
  | error e =>
    rw [hp] at h
    simp [Except.map] at h
  | ok p =>
    obtain ⟨o, anns⟩ := p
    rw [hp] at h
    simp only [Except.map, Except.ok.injEq] at h
    subst h
    exact ⟨rfl, rfl⟩

/-- C1: the spec says an invalid `orientation: ` value fails with an
"unknown orientation" error whose message includes the offending text.  The
code does throw, but the template literal interpolates the stale `orientation`
variable (assigned only after the check), so the message reads
`Unknown orientation white` and does not contain the offending text
`purple` at all — a use-before-assignment slip in `main.ts` line 103. -/
theorem claim_C1_stale_error_message :
    parseCode "8/8/8/8/8/8/8/8\norientation: purple" =
      .error ("Unknown orientation white".data) ∧
    containsSub "purple".data ("Unknown orientation white".data) = false := by
  exact ⟨by decide, by decide⟩

/-- C2: `parseCode` raises an error if and only if some line after the first
starts with `"orientation: "` whose stripped-and-trimmed value is neither
`"white"` nor `"black"`; moreover a token starting with neither `H` nor `A`
contributes nothing (and no error). -/
theorem claim_C2_error_iff :
    (∀ input : List Char,
      (∃ e, parseCodeL input = .error e) ↔
        ∃ line ∈ (splitLines input).drop 1,
          startsWith orientKey line = true ∧
          trimJs (replaceFirst orientKey line) ≠ whiteStr ∧
          trimJs (replaceFirst orientKey line) ≠ blackStr) ∧
    (∀ tok : List Char, startsWith hKey tok = false → startsWith aKey tok = false →
      parseToken tok = none) := by
  constructor
  · intro input
    rw [← parseLines_error_iff ((splitLines input).drop 1) whiteStr []]
    constructor
    · rintro ⟨e, he⟩
      unfold parseCodeL at he
      cases hp : parseLines whiteStr [] ((splitLines input).drop 1) with
      | error e2 => exact ⟨e2, rfl⟩
      | ok p =>
        obtain ⟨o, anns⟩ := p
        rw [hp] at he
        simp [Except.map] at he
    · rintro ⟨e, he⟩
      refine ⟨e, ?_⟩
      unfold parseCodeL
      rw [he]
      rfl
  · intro tok h1 h2
    unfold parseToken
    rw [if_neg (by simp [h1]), if_neg (by simp [h2])]

theorem claim_C2_witness : parseToken "Xz9".data = none :=
  claim_C2_error_iff.2 "Xz9".data (by decide) (by decide)

/-- C3 counterexample: for the token `Ae2-e4-g5` the claim says the arrow's
end is all text after the first `-`, i.e. `e4-g5`; the code's
`split("-")` destructuring instead yields `e4` (the text between the first
and the second `-`). -/
theorem claim_C3_counterexample :
    parseCode "x\nannotations: Ae2-e4-g5" =
      .ok { fen := "x".data
            annotations := [.arrow (some "e2".data) (some "e4".data)]
            orientation := whiteStr } ∧
    Annot.arrow (some "e2".data) (some "e4".data) ≠
      Annot.arrow (some "e2".data) (some ("e4-g5".data)) := by
  exact ⟨by decide, by decide⟩

/-- C3 (amended): an `H`-token yields a Highlight of everything after the
`H`; an `A`-token yields an Arrow whose start is the text before the first
`-` and whose end is the text strictly between the first and the second `-`
(all text after the first `-` only when no second `-` exists), or absent
when the token has no `-`; square strings are carried through without any
range validation. -/
theorem claim_C3_token_shape :
    ∀ tok : List Char,
      (startsWith hKey tok = true → parseToken tok = some (.highlight (tok.drop 1))) ∧
      (startsWith aKey tok = true →
        parseToken tok = some (.arrow (some (takeUntil '-' (tok.drop 1)))
          (if (tok.drop 1).any (fun c => c == '-') then
            some (takeUntil '-' (dropPast '-' (tok.drop 1)))
          else none))) := by
  intro tok
  constructor
  · intro h
    unfold parseToken
    rw [if_pos h]
  · intro h
    have hH := startsWith_A_not_H tok h
    unfold parseToken
    rw [if_neg (by simp [hH]), if_pos h]
    simp only [splitOnChar_getq_zero, splitOnChar_getq_one]

theorem claim_C3_witness :
    parseToken "Ae2-e4-g5".data = some (.arrow (some (takeUntil '-' ("Ae2-e4-g5".data.drop 1)))
      (if ("Ae2-e4-g5".data.drop 1).any (fun c => c == '-') then
        some (takeUntil '-' (dropPast '-' ("Ae2-e4-g5".data.drop 1)))
      else none)) :=
  (claim_C3_token_shape "Ae2-e4-g5".data).2 (by decide)

/-- C4: the directive line `annotations: He4 Ae2-e4 Xz9` contributes exactly
two annotations, in order a Highlight of `e4` then an Arrow `e2`-`e4`; the
`Xz9` token is dropped, the line raises no error, and the end-to-end parse of
an input containing it succeeds with exactly those two annotations. -/
theorem claim_C4_xz9_line :
    ∀ (acc : List Annot) (o : List Char),
      orientStep o ("annotations: He4 Ae2-e4 Xz9".data) =
        .ok ("annotations: He4 Ae2-e4 Xz9".data, o) ∧
      annotStep acc ("annotations: He4 Ae2-e4 Xz9".data) =
        acc ++ [.highlight "e4".data, .arrow (some "e2".data) (some "e4".data)] ∧
      parseCode "8/8/8/8/8/8/8/8\nannotations: He4 Ae2-e4 Xz9" =
        .ok { fen := "8/8/8/8/8/8/8/8".data
              annotations := [.highlight "e4".data, .arrow (some "e2".data) (some "e4".data)]
              orientation := whiteStr } := by
  intro acc o
  refine ⟨?_, ?_, by decide⟩
  · unfold orientStep
    rw [if_neg (by decide)]
  · unfold annotStep
    rw [if_pos (by decide)]
    exact congrArg (acc ++ ·) (by decide)

theorem claim_C4_witness :
    orientStep whiteStr ("annotations: He4 Ae2-e4 Xz9".data) =
      .ok ("annotations: He4 Ae2-e4 Xz9".data, whiteStr) ∧
    annotStep [] ("annotations: He4 Ae2-e4 Xz9".data) =
      [] ++ [.highlight "e4".data, .arrow (some "e2".data) (some "e4".data)] ∧
    parseCode "8/8/8/8/8/8/8/8\nannotations: He4 Ae2-e4 Xz9" =
      .ok { fen := "8/8/8/8/8/8/8/8".data
            annotations := [.highlight "e4".data, .arrow (some "e2".data) (some "e4".data)]
            orientation := whiteStr } :=
  claim_C4_xz9_line [] whiteStr

/-- C5: on every successful parse, the `fen` field is the first line of the
input with the literal `"fen: "` removed from the front when the first line
starts with that text, and the first line verbatim otherwise; the
orientation and annotations come exclusively from the lines after the first,
so the first line is never treated as a directive line. -/
theorem claim_C5_fen (input : List Char) (r : ParsedChessCode)
    (h : parseCodeL input = .ok r) :
    (r.fen = if startsWith fenKey ((splitLines input).headD []) = true then
        ((splitLines input).headD []).drop (fenKey.length)
      else (splitLines input).headD []) ∧
    parseLines whiteStr [] ((splitLines input).drop 1) =
      .ok (r.orientation, r.annotations) := by
  obtain ⟨hp, hfen⟩ := parseCodeL_ok_elim input r h
  refine ⟨?_, hp⟩
  rw [hfen]
  by_cases hsw : startsWith fenKey ((splitLines input).headD []) = true
  · rw [if_pos hsw, if_pos hsw, replaceFirst_eq_drop _ _ hsw]
  · rw [if_neg hsw, if_neg hsw]

theorem claim_C5_witness :
    ((ParsedChessCode.mk "abc".data [] whiteStr).fen =
      if startsWith fenKey ((splitLines "fen: abc".data).headD []) = true then
        ((splitLines "fen: abc".data).headD []).drop (fenKey.length)
      else (splitLines "fen: abc".data).headD []) ∧
    parseLines whiteStr [] ((splitLines "fen: abc".data).drop 1) =
      .ok ((ParsedChessCode.mk "abc".data [] whiteStr).orientation,
        (ParsedChessCode.mk "abc".data [] whiteStr).annotations) :=
  claim_C5_fen "fen: abc".data (ParsedChessCode.mk "abc".data [] whiteStr) (by decide)

/-- C6: on every successful parse the orientation is the value of the last
`orientation: ` line (later lines overwrite earlier ones), defaulting to
`white` when no such line exists; the single-line starting-position input
parses to orientation `white`, no annotations, and that line as the fen. -/
theorem claim_C6_orientation (input : List Char) (r : ParsedChessCode)
    (h : parseCodeL input = .ok r) :
    r.orientation = (orientVals ((splitLines input).drop 1)).getLastD whiteStr ∧
    ((∀ line ∈ (splitLines input).drop 1, startsWith orientKey line = false) →
      r.orientation = whiteStr) ∧
    parseCode "rnbqkbnr/pppppppp/8/8/8/8/PPPPPPPP/RNBQKBNR" =
      .ok { fen := "rnbqkbnr/pppppppp/8/8/8/8/PPPPPPPP/RNBQKBNR".data
            annotations := []
            orientation := whiteStr } := by
  obtain ⟨hp, _⟩ := parseCodeL_ok_elim input r h
  have hmain := parseLines_ok_orient _ whiteStr [] r.orientation r.annotations hp
  refine ⟨hmain, ?_, by decide⟩
  intro hnone
  rw [hmain]
  have hnil : orientVals ((splitLines input).drop 1) = [] := by
    unfold orientVals
    rw [List.filterMap_eq_nil_iff]
    intro l hl
    simp [hnone l hl]
  rw [hnil]
  rfl

theorem claim_C6_witness :
    (ParsedChessCode.mk "x".data [] blackStr).orientation =
      (orientVals ((splitLines "x\norientation: black".data).drop 1)).getLastD whiteStr :=
  (claim_C6_orientation "x\norientation: black".data
    (ParsedChessCode.mk "x".data [] blackStr) (by decide)).1

/-- C7: on every successful parse the annotations list is the concatenation,
over the directive lines in input order, of each line's recognized tokens in
left-to-right order; in particular the line `annotations: He4 Ae2-e4`
contributes the Highlight before the Arrow. -/
theorem claim_C7_order (input : List Char) (r : ParsedChessCode)
    (h : parseCodeL input = .ok r) :
    r.annotations = (((splitLines input).drop 1).map lineAnns).flatten ∧
    lineAnns ("annotations: He4 Ae2-e4".data) =
      [.highlight "e4".data, .arrow (some "e2".data) (some "e4".data)] := by
  obtain ⟨hp, _⟩ := parseCodeL_ok_elim input r h
  have hanns := parseLines_ok_anns _ whiteStr [] r.orientation r.annotations hp
  rw [List.nil_append] at hanns
  exact ⟨hanns, by decide⟩

theorem claim_C7_witness :
    (ParsedChessCode.mk "x".data [Annot.highlight "e4".data] whiteStr).annotations =
      (((splitLines "x\nannotations: He4".data).drop 1).map lineAnns).flatten :=
  (claim_C7_order "x\nannotations: He4".data
    (ParsedChessCode.mk "x".data [Annot.highlight "e4".data] whiteStr) (by decide)).1

/-- C8: with no persisted data (`loadData` yields nothing), the plugin's
settings are exactly the documented defaults: white squares `#f0d9b5`, black
squares `#b58862`, board width 320 pixels. -/
theorem claim_C8_default_settings :
    loadSettings none = defaultSettings ∧
    (loadSettings none).whiteSquareColor = "#f0d9b5".data ∧
    (loadSettings none).blackSquareColor = "#b58862".data ∧
    (loadSettings none).boardWidthPx = 320 :=
  ⟨rfl, rfl, rfl, rfl⟩

/-- C9: a token starting with `A` but containing no `-` parses without error
into an Arrow whose start is the whole text after the `A` and whose end is
absent (`undefined` in the source, `none` here). -/
theorem claim_C9_dashless_arrow (tok : List Char)
    (hA : startsWith aKey tok = true)
    (hnd : tok.any (fun c => c == '-') = false) :
    parseToken tok = some (.arrow (some (tok.drop 1)) none) := by
  have hH := startsWith_A_not_H tok hA
  have hnd1 : (tok.drop 1).any (fun c => c == '-') = false := by
    rw [List.any_eq_false] at hnd ⊢
    intro x hx
    exact hnd x (List.mem_of_mem_drop hx)
  unfold parseToken
  rw [if_neg (by simp [hH]), if_pos hA]
  simp only [splitOnChar_getq_zero, splitOnChar_getq_one, hnd1,
    Bool.false_eq_true, if_false]
  rw [takeUntil_eq_self '-' _ hnd1]

theorem claim_C9_witness :
    parseToken "Ae4".data = some (.arrow (some "e4".data) none) :=
  claim_C9_dashless_arrow "Ae4".data (by decide) (by decide)

/-- C10: `parseCode` is deterministic and depends only on its input string
(the source method is static and reads no plugin or settings state, which is
why its embedding takes the input string as its only argument): equal inputs
give equal results, with the same fen, orientation and annotation list. -/
theorem claim_C10_deterministic (a b : String) (hab : a = b)
    (r r2 : ParsedChessCode) (hr : parseCode a = .ok r) (hr2 : parseCode b = .ok r2) :
    parseCode a = parseCode b ∧ r.fen = r2.fen ∧ r.orientation = r2.orientation ∧
      r.annotations = r2.annotations := by
  subst hab
  rw [hr] at hr2
  injection hr2 with hr2
  subst hr2
  exact ⟨rfl, rfl, rfl, rfl⟩

theorem claim_C10_witness :
    parseCode "x" = parseCode "x" ∧
    (ParsedChessCode.mk "x".data [] whiteStr).fen =
      (ParsedChessCode.mk "x".data [] whiteStr).fen ∧
    (ParsedChessCode.mk "x".data [] whiteStr).orientation =
      (ParsedChessCode.mk "x".data [] whiteStr).orientation ∧
    (ParsedChessCode.mk "x".data [] whiteStr).annotations =
      (ParsedChessCode.mk "x".data [] whiteStr).annotations :=
  claim_C10_deterministic "x" "x" rfl (ParsedChessCode.mk "x".data [] whiteStr)
    (ParsedChessCode.mk "x".data [] whiteStr) (by decide) (by decide)
